import Mathlib

/-!
Verification of the FB2 streaming metadata extractor (`book_tools/format/fb2sax.py`).

The Python source is shallowly embedded: each class becomes a structure, each
method a pure function on that structure, and the SAX callback protocol becomes
a step function over an explicit event list.  `StopIteration` (the early-stop
signal) is modelled with `Except`: `Except.error (msg, state)` is the raised
signal together with the mutable state at the moment of the raise.  Python
strings are Lean `String`s; `str.lower`, `str.strip`, `str.isdigit`,
`str.startswith` and `str.split` are modelled character-wise on `String.data`.
-/

/-! ## Python string primitives -/

/-- Model of Python `str.lower()`: lower-case every character. -/
def pyLower (s : String) : String :=
  String.mk (s.data.map Char.toLower)

/-- Model of Python `str.strip(chars)`: drop characters of `cs` from both ends. -/
def pyStripChars (cs : List Char) (s : String) : String :=
  String.mk (((s.data.dropWhile (cs.contains ·)).reverse.dropWhile (cs.contains ·)).reverse)

/-- Python whitespace characters, as recognised by `str.strip()` with no arguments. -/
def pyWhitespace : List Char := [' ', '\t', '\n', '\r', '\x0b', '\x0c']

/-- Model of Python `str.strip()`: trim whitespace from both ends. -/
def pyStripWs (s : String) : String :=
  pyStripChars pyWhitespace s

/-- Model of Python `str.isdigit()` (ASCII fragment): non-empty and all digits. -/
def pyIsDigit (s : String) : Bool :=
  !s.data.isEmpty && s.data.all Char.isDigit

/-- Model of Python `int(s)` on a digit string: decimal value. -/
def strToNat (s : String) : Nat :=
  s.data.foldl (fun n c => n * 10 + (c.toNat - Char.toNat '0')) 0

/-- Model of Python `str.startswith(p)`: prefix test on the character lists. -/
def pyStartsWith (s p : String) : Bool :=
  p.data.isPrefixOf s.data

/-- Model of Python `str.split(sep)` for a one-character separator, on character
lists.  Always returns at least one (possibly empty) part. -/
def splitOnChar (c : Char) : List Char → List (List Char)
  | [] => [[]]
  | x :: xs =>
    let r := splitOnChar c xs
    if x = c then [] :: r
    else
      match r with
      | [] => [[x]]
      | y :: ys => (x :: y) :: ys

/-- Model of Python `str.lstrip(":")`: drop leading colons. -/
def lstripColons (l : List Char) : List Char :=
  l.dropWhile (· == ':')

/-! ## Attribute dictionaries -/

/-- Python `dict[str, str]` as an ordered association list. -/
abbrev AttrMap := List (String × String)

/-- Model of `dict.get(k)`: the value of the first binding of `k`, if any. -/
def AttrMap.get (m : AttrMap) (k : String) : Option String :=
  (m.find? (fun p => p.1 == k)).map (·.2)

/-- Model of `dict.get(k, d)`. -/
def AttrMap.getD (m : AttrMap) (k d : String) : String :=
  (AttrMap.get m k).getD d

/-- Insertion with Python dict semantics: replace the value in place when the
key exists, otherwise append the binding. -/
def AttrMap.insert (m : AttrMap) (k v : String) : AttrMap :=
  if (m.find? (fun p => p.1 == k)).isSome then
    m.map (fun p => if p.1 == k then (k, v) else p)
  else m ++ [(k, v)]

/-! ## Tag-name normalization (`normalize_tag_name`, `normalize_attrs`) -/

/-- `normalize_tag_name`: from the source,
`tag.split("}")[-1].lstrip(":").lower() if "}" in tag else tag.lower()`. -/
def normalize_tag_name (tag : String) : String :=
  if tag.data.contains '\x7d' then
    pyLower (String.mk (lstripColons ((splitOnChar '\x7d' tag.data).getLastD [])))
  else pyLower tag

/-- `normalize_attrs`: normalize every attribute key. -/
def normalize_attrs (attrs : AttrMap) : AttrMap :=
  attrs.foldl (fun acc kv => AttrMap.insert acc (normalize_tag_name kv.1) kv.2) []

/-! ## Constants -/

def DESCRIPTION_TAG : String := "description"
def BODY_TAG : String := "body"
def AUTHOR_TAG : String := "author"

/-! ## `TagHandler` -/

/-- State of `TagHandler` (fb2sax.py lines 17-92).  `current_index` is the
depth cursor, `-1` when unmatched. -/
structure TagHandler where
  tags : List String
  path_size : Int
  current_index : Int
  values : List String
  attributes_list : List AttrMap
  current_attributes : AttrMap
  processing_value : Bool
  current_value : String
  deriving DecidableEq

/-- `TagHandler.__init__`. -/
def TagHandler.init (tags : List String) : TagHandler :=
  { tags := tags
    path_size := (tags.length : Int)
    current_index := -1
    values := []
    attributes_list := []
    current_attributes := []
    processing_value := false
    current_value := "" }

/-- `TagHandler.reset`: return mutable state to initial values; `tags` and
`path_size` are untouched, as in the source. -/
def TagHandler.reset (h : TagHandler) : TagHandler :=
  { h with
    current_index := -1
    values := []
    attributes_list := []
    current_attributes := []
    processing_value := false
    current_value := "" }

/-- `TagHandler.open_tag`: advance the cursor when the next path segment equals
the tag; after that, if the cursor indexes the last segment, record the
attributes and report a match. -/
def TagHandler.open_tag (h : TagHandler) (tag : String) (attrs : AttrMap) :
    TagHandler × Bool :=
  let h :=
    if h.current_index + 1 < h.path_size ∧
        h.tags.get? (h.current_index + 1).toNat = some tag then
      { h with current_index := h.current_index + 1 }
    else h
  if h.current_index + 1 = h.path_size then
    ({ h with current_attributes := attrs, attributes_list := h.attributes_list ++ [attrs] },
      true)
  else (h, false)

/-- `TagHandler.close_tag`: retreat the cursor on a matching close and flush a
pending value (trimmed) into `values`. -/
def TagHandler.close_tag (h : TagHandler) (tag : String) : TagHandler :=
  if h.current_index ≥ 0 ∧ h.tags.get? h.current_index.toNat = some tag then
    let h := { h with current_index := h.current_index - 1 }
    if h.processing_value then
      { h with
        values := h.values ++ [pyStripWs h.current_value]
        processing_value := false
        current_value := "" }
    else h
  else h

/-- `TagHandler.set_value`: accumulate text while at the target depth. -/
def TagHandler.set_value (h : TagHandler) (data : String) : TagHandler :=
  if h.current_index + 1 = h.path_size then
    if h.processing_value = false then
      { h with current_value := data, processing_value := true }
    else
      { h with current_value := h.current_value ++ data }
  else h

/-- `TagHandler.get_attribute`: an attribute of the most recent match. -/
def TagHandler.get_attribute (h : TagHandler) (attr : String) : Option String :=
  AttrMap.get h.current_attributes attr

/-- `TagHandler.get_text`: values joined by a divider. -/
def TagHandler.get_text (h : TagHandler) (divider : String) : String :=
  String.intercalate divider h.values

/-! ## `CoverHandler` -/

/-- State of `CoverHandler` (fb2sax.py lines 95-148): a `TagHandler` with a
target identifier, an inside-cover flag, a sticky found flag and the collected
base64 chunks. -/
structure CoverHandler extends TagHandler where
  is_cover : Bool
  cover_name : String
  cover_data_chunks : List String
  is_found : Bool
  deriving DecidableEq

/-- `CoverHandler.__init__`. -/
def CoverHandler.init (tags : List String) : CoverHandler :=
  { TagHandler.init tags with
    is_cover := false
    cover_name := ""
    cover_data_chunks := []
    is_found := false }

/-- `CoverHandler.reset`. -/
def CoverHandler.reset (c : CoverHandler) : CoverHandler :=
  { c.toTagHandler.reset with
    is_cover := false
    cover_name := ""
    cover_data_chunks := []
    is_found := false }

/-- `CoverHandler.open_tag`: base match first, then compare the `id` attribute
of a newly matched element with the target identifier (Python truthiness: the
attribute must be present and non-empty). -/
def CoverHandler.open_tag (c : CoverHandler) (tag : String) (attrs : AttrMap) :
    CoverHandler × Bool :=
  let r := TagHandler.open_tag c.toTagHandler tag attrs
  let c := { c with toTagHandler := r.1 }
  if r.2 then
    match TagHandler.get_attribute r.1 "id" with
    | some idv =>
      if idv ≠ "" ∧ pyLower idv = pyLower c.cover_name then
        ({ c with is_cover := true }, true)
      else (c, true)
    | none => (c, true)
  else (c, false)

/-- `CoverHandler.close_tag`: when inside a cover element set the sticky found
flag and clear the inside flag, then delegate to the base close. -/
def CoverHandler.close_tag (c : CoverHandler) (tag : String) : CoverHandler :=
  let c := if c.is_cover then { c with is_found := true, is_cover := false } else c
  { c with toTagHandler := c.toTagHandler.close_tag tag }

/-- `CoverHandler.set_cover_name`: from the source,
`cover_name.strip("#").lower() if cover_name and cover_name.startswith("#") else ""`. -/
def CoverHandler.set_cover_name (c : CoverHandler) (cover_name : Option String) :
    CoverHandler :=
  { c with cover_name :=
      match cover_name with
      | some s => if s ≠ "" ∧ pyStartsWith s "#" then pyLower (pyStripChars ['#'] s) else ""
      | none => "" }

/-- `CoverHandler.add_data`: append a chunk while inside a cover element,
skipping bare newline chunks. -/
def CoverHandler.add_data (c : CoverHandler) (data : String) : CoverHandler :=
  if c.is_cover ∧ data ≠ "\n" then
    { c with cover_data_chunks := c.cover_data_chunks ++ [data] }
  else c

/-- `CoverHandler.cover_data` property: concatenation of the chunks. -/
def CoverHandler.cover_data (c : CoverHandler) : String :=
  String.join c.cover_data_chunks

/-- Direct calls on a `CoverHandler` in isolation (the interface the engine
uses: `open_tag`, `close_tag`, `add_data`). -/
inductive CoverEvent where
  | openE (tag : String) (attrs : AttrMap)
  | closeE (tag : String)
  | dataE (data : String)
  deriving DecidableEq

/-- One `CoverEvent` applied to a `CoverHandler`. -/
def CoverHandler.step (c : CoverHandler) : CoverEvent → CoverHandler
  | .openE t a => (c.open_tag t a).1
  | .closeE t => c.close_tag t
  | .dataE d => c.add_data d

/-- A sequence of `CoverEvent`s applied in order. -/
def CoverHandler.runOps (c : CoverHandler) : List CoverEvent → CoverHandler
  | [] => c
  | e :: es => (c.step e).runOps es

/-! ## `FB2Parser` -/

/-- State of `FB2Parser` (fb2sax.py lines 161-307).  The Python
`tag_handlers` dict has a fixed key set determined at construction, so it is
flattened into named fields in insertion order; `cover_name` and `cover_image`
are members of the dict exactly when `read_cover` is true, and every access to
them in the source is guarded by `read_cover`, which the embedding mirrors.
The handler for the annotation paragraphs (dict key `"annotation"`) is the
field `annotation_h`. -/
structure FB2Parser where
  read_cover : Bool
  author_first : TagHandler
  author_last : TagHandler
  genre : TagHandler
  lang : TagHandler
  book_title : TagHandler
  annotation_h : TagHandler
  docdate : TagHandler
  series : TagHandler
  cover_name : TagHandler
  cover_image : CoverHandler
  stop_tag : String
  processing_description : Bool
  parse_error : Nat
  parse_error_msg : String
  in_body : Bool
  body_chunks : List String
  deriving DecidableEq

/-- `FB2Parser.__init__(read_cover)`. -/
def FB2Parser.init (read_cover : Bool) : FB2Parser :=
  { read_cover := read_cover
    author_first := TagHandler.init ["description", "title-info", "author", "first-name"]
    author_last := TagHandler.init ["description", "title-info", "author", "last-name"]
    genre := TagHandler.init ["description", "title-info", "genre"]
    lang := TagHandler.init ["description", "title-info", "lang"]
    book_title := TagHandler.init ["description", "title-info", "book-title"]
    annotation_h := TagHandler.init ["description", "title-info", "annotation", "p"]
    docdate := TagHandler.init ["description", "document-info", "date"]
    series := TagHandler.init ["description", "title-info", "sequence"]
    cover_name := TagHandler.init ["description", "title-info", "coverpage", "image"]
    cover_image := CoverHandler.init ["binary"]
    stop_tag := DESCRIPTION_TAG
    processing_description := true
    parse_error := 0
    parse_error_msg := ""
    in_body := false
    body_chunks := [] }

/-- `FB2Parser.reset`: reset parse-session state and every handler in the
dict (the cover handlers are in the dict exactly when `read_cover`). -/
def FB2Parser.reset (p : FB2Parser) : FB2Parser :=
  { p with
    processing_description := true
    parse_error := 0
    parse_error_msg := ""
    in_body := false
    body_chunks := []
    author_first := p.author_first.reset
    author_last := p.author_last.reset
    genre := p.genre.reset
    lang := p.lang.reset
    book_title := p.book_title.reset
    annotation_h := p.annotation_h.reset
    docdate := p.docdate.reset
    series := p.series.reset
    cover_name := if p.read_cover then p.cover_name.reset else p.cover_name
    cover_image := if p.read_cover then p.cover_image.reset else p.cover_image }

/-- The body of the `if self.processing_description` block of
`FB2Parser.start`: the loop over `tag_handlers.values()` skips the
`CoverHandler` when `read_cover` is set; note that the source then opens the
`cover_name` handler a second time in the dedicated cover block before
forwarding its `href` attribute to `set_cover_name`. -/
def FB2Parser.openHandlersStage (p : FB2Parser) (local_name : String)
    (nattrs : AttrMap) : FB2Parser :=
  let p := { p with
    author_first := (p.author_first.open_tag local_name nattrs).1
    author_last := (p.author_last.open_tag local_name nattrs).1
    genre := (p.genre.open_tag local_name nattrs).1
    lang := (p.lang.open_tag local_name nattrs).1
    book_title := (p.book_title.open_tag local_name nattrs).1
    annotation_h := (p.annotation_h.open_tag local_name nattrs).1
    docdate := (p.docdate.open_tag local_name nattrs).1
    series := (p.series.open_tag local_name nattrs).1 }
  let p :=
    if p.read_cover then
      { p with cover_name := (p.cover_name.open_tag local_name nattrs).1 }
    else p
  if p.read_cover then
    let r := p.cover_name.open_tag local_name nattrs
    let p := { p with cover_name := r.1 }
    if r.2 then
      { p with cover_image :=
          p.cover_image.set_cover_name (TagHandler.get_attribute r.1 "href") }
    else p
  else p

/-- `FB2Parser.start`: the start-tag callback. -/
def FB2Parser.start (p : FB2Parser) (name : String) (attrs : AttrMap) : FB2Parser :=
  let local_name := normalize_tag_name name
  let nattrs := normalize_attrs attrs
  let p := if local_name = BODY_TAG then { p with in_body := true } else p
  let p := if p.processing_description then p.openHandlersStage local_name nattrs else p
  if p.read_cover then
    { p with cover_image := (p.cover_image.open_tag local_name nattrs).1 }
  else p

/-- The author-pairing reconciliation inlined in `FB2Parser.end` (fb2sax.py
lines 246-252): append one `" "` placeholder to the strictly shorter of the
two author value lists. -/
def FB2Parser.reconcileAuthors (p : FB2Parser) : FB2Parser :=
  if p.author_last.values.length > p.author_first.values.length then
    { p with author_first :=
        { p.author_first with values := p.author_first.values ++ [" "] } }
  else if p.author_last.values.length < p.author_first.values.length then
    { p with author_last :=
        { p.author_last with values := p.author_last.values ++ [" "] } }
  else p

/-- The body of the `if self.processing_description` block of `FB2Parser.end`:
close every non-cover handler; the `cover_name` handler is closed twice (once
by the loop, once by the dedicated cover block), as in the source. -/
def FB2Parser.closeHandlersStage (p : FB2Parser) (local_name : String) : FB2Parser :=
  let p := { p with
    author_first := p.author_first.close_tag local_name
    author_last := p.author_last.close_tag local_name
    genre := p.genre.close_tag local_name
    lang := p.lang.close_tag local_name
    book_title := p.book_title.close_tag local_name
    annotation_h := p.annotation_h.close_tag local_name
    docdate := p.docdate.close_tag local_name
    series := p.series.close_tag local_name }
  let p :=
    if p.read_cover then
      { p with cover_name := p.cover_name.close_tag local_name }
    else p
  if p.read_cover then
    { p with cover_name := p.cover_name.close_tag local_name }
  else p

/-- The cover-close step of `FB2Parser.end`: close the cover handler and raise
`StopIteration("Cover found, stopping parse")` when it now reports found. -/
def FB2Parser.coverCloseStage (p : FB2Parser) (local_name : String) :
    Except (String × FB2Parser) FB2Parser :=
  if p.read_cover then
    let ci := p.cover_image.close_tag local_name
    let p := { p with cover_image := ci }
    if ci.is_found then .error ("Cover found, stopping parse", p) else .ok p
  else .ok p

/-- The tail of `FB2Parser.end`: author reconciliation, then the stop-tag
check, raising `StopIteration("No cover, stopping parse")` in cover mode when
no cover target was ever set. -/
def FB2Parser.stopStage (p : FB2Parser) (local_name : String) :
    Except (String × FB2Parser) FB2Parser :=
  let p := if local_name = AUTHOR_TAG then p.reconcileAuthors else p
  if local_name = p.stop_tag then
    if p.read_cover ∧ p.cover_image.cover_name = "" then
      .error ("No cover, stopping parse", p)
    else .ok { p with processing_description := false }
  else .ok p

/-- `FB2Parser.end`: the end-tag callback.  `Except.error (msg, state)` models
a raised `StopIteration(msg)` with the state at the raise. -/
def FB2Parser.endTag (p : FB2Parser) (name : String) :
    Except (String × FB2Parser) FB2Parser :=
  let local_name := normalize_tag_name name
  let p := if local_name = BODY_TAG then { p with in_body := false } else p
  let p := if p.processing_description then p.closeHandlersStage local_name else p
  match p.coverCloseStage local_name with
  | .error e => .error e
  | .ok p => p.stopStage local_name

/-- `FB2Parser.data`: the character-data callback.  The loop condition here is
only "not a `CoverHandler`", so the `cover_name` handler receives text exactly
when it is in the dict (`read_cover`). -/
def FB2Parser.data (p : FB2Parser) (d : String) : FB2Parser :=
  let p := if p.in_body then { p with body_chunks := p.body_chunks ++ [d] } else p
  let p :=
    if p.processing_description then
      let p := { p with
        author_first := p.author_first.set_value d
        author_last := p.author_last.set_value d
        genre := p.genre.set_value d
        lang := p.lang.set_value d
        book_title := p.book_title.set_value d
        annotation_h := p.annotation_h.set_value d
        docdate := p.docdate.set_value d
        series := p.series.set_value d }
      if p.read_cover then { p with cover_name := p.cover_name.set_value d } else p
    else p
  if p.read_cover then { p with cover_image := p.cover_image.add_data d } else p

/-- A streaming tokenizer event delivered to the parser target. -/
inductive Event where
  | startE (name : String) (attrs : AttrMap)
  | endE (name : String)
  | dataE (data : String)
  deriving DecidableEq

/-- Dispatch of one event to the parser callbacks. -/
def processEvent (p : FB2Parser) : Event → Except (String × FB2Parser) FB2Parser
  | .startE name attrs => .ok (p.start name attrs)
  | .endE name => p.endTag name
  | .dataE d => .ok (p.data d)

/-- The tokenizer feed loop: deliver events in order, aborting at a raised
`StopIteration`. -/
def runEvents (p : FB2Parser) : List Event → Except (String × FB2Parser) FB2Parser
  | [] => .ok p
  | e :: es =>
    match processEvent p e with
    | .ok q => runEvents q es
    | .error x => .error x

/-- `FB2Parser.parse` when the tokenizer itself raises nothing: reset, feed
all events, and swallow a `StopIteration` as success. -/
def FB2Parser.parse (p : FB2Parser) (events : List Event) : FB2Parser :=
  match runEvents p.reset events with
  | .ok q => q
  | .error (_, q) => q

/-- `FB2Parser.parse` when the tokenizer (or a callback) raises an exception
other than `StopIteration` after delivering `events`: the `except Exception`
branch records the message and sets the error flag, keeping all accumulated
state.  When a `StopIteration` fired first, the later exception never
happens. -/
def FB2Parser.parseRaising (p : FB2Parser) (events : List Event) (errMsg : String) :
    FB2Parser :=
  match runEvents p.reset events with
  | .ok q => { q with parse_error := 1, parse_error_msg := errMsg }
  | .error (_, q) => q

/-- `FB2Parser.get_body_text`. -/
def FB2Parser.get_body_text (p : FB2Parser) : String :=
  pyStripWs (String.join p.body_chunks)

/-! ## Facade series extraction -/

/-- Modelled from the spec: `strip_symbols` from `book_tools.format.util` is
not under `src/`; the spec describes it as "a fixed cosmetic symbol set
(leading/trailing quotes, brackets, etc.)". -/
def strip_symbols : List Char :=
  ['\'', '"', '[', ']', '(', ')', '<', '>', '«', '»']

/-- `FB2Sax._detect_series_info` (fb2sax.py lines 389-398), as a function of
the series handler's attribute history: `none` models "no series". -/
def detect_series_info (attributes_list : List AttrMap) : Option (String × String) :=
  match attributes_list with
  | [] => none
  | attr :: _ =>
    match AttrMap.get attr "name" with
    | none => none
    | some ser_name =>
      if ser_name ≠ "" then
        some (pyStripChars strip_symbols ser_name,
          pyStripChars strip_symbols (AttrMap.getD attr "number" "0"))
      else none

/-- The numeric reading of the stored series index, from its consumer
`process_series` in `src/main.py` line 308:
`ser_no = int(index_str) if index_str.isdigit() else 0`. -/
def series_numeric_index (series_info : Option (String × String)) : Nat :=
  match series_info with
  | some (_, index_str) => if pyIsDigit index_str then strToNat index_str else 0
  | none => 0

/-! ## Helper lemmas: `CoverHandler` field behaviour -/

theorem pyLower_ne_empty {s : String} (h : s ≠ "") : pyLower s ≠ "" := by
  intro hc
  apply h
  unfold pyLower at hc
  have : (String.mk (s.data.map Char.toLower)).data = ("" : String).data := by rw [hc]
  simp at this
  exact String.ext this

theorem CoverHandler.open_tag_fields (c : CoverHandler) (t : String) (a : AttrMap) :
    ((c.open_tag t a).1).cover_name = c.cover_name ∧
    ((c.open_tag t a).1).is_found = c.is_found ∧
    ((c.open_tag t a).1).cover_data_chunks = c.cover_data_chunks ∧
    (c.cover_name = "" → ((c.open_tag t a).1).is_cover = c.is_cover) := by
  simp only [CoverHandler.open_tag]
  split
  · split
    · split
      · next hcond =>
        refine ⟨rfl, rfl, rfl, fun hemp => ?_⟩
        exact absurd (hcond.2.trans (by rw [hemp]; rfl)) (pyLower_ne_empty hcond.1)
      · exact ⟨rfl, rfl, rfl, fun _ => rfl⟩
    · exact ⟨rfl, rfl, rfl, fun _ => rfl⟩
  · exact ⟨rfl, rfl, rfl, fun _ => rfl⟩

theorem CoverHandler.close_tag_fields (c : CoverHandler) (t : String) :
    ((c.close_tag t).is_found = (c.is_found || c.is_cover)) ∧
    ((c.close_tag t).is_cover = false) ∧
    ((c.close_tag t).cover_name = c.cover_name) ∧
    ((c.close_tag t).cover_data_chunks = c.cover_data_chunks) := by
  simp only [CoverHandler.close_tag]
  by_cases h : c.is_cover <;> simp [h]

theorem CoverHandler.add_data_fields (c : CoverHandler) (d : String) :
    ((c.add_data d).is_cover = c.is_cover) ∧
    ((c.add_data d).is_found = c.is_found) ∧
    ((c.add_data d).cover_name = c.cover_name) ∧
    (c.is_cover = false → (c.add_data d).cover_data_chunks = c.cover_data_chunks) := by
  simp only [CoverHandler.add_data]
  split
  · next h => exact ⟨rfl, rfl, rfl, fun hf => absurd h.1 (by rw [hf]; exact Bool.false_ne_true)⟩
  · exact ⟨rfl, rfl, rfl, fun _ => rfl⟩

theorem CoverHandler.set_cover_name_fields (c : CoverHandler) (x : Option String) :
    ((c.set_cover_name x).is_cover = c.is_cover) ∧
    ((c.set_cover_name x).is_found = c.is_found) ∧
    ((c.set_cover_name x).cover_data_chunks = c.cover_data_chunks) :=
  ⟨rfl, rfl, rfl⟩

theorem CoverHandler.runOps_inactive (evs : List CoverEvent) :
    ∀ c : CoverHandler, c.cover_name = "" → c.is_cover = false → c.is_found = false →
      (c.runOps evs).is_cover = false ∧ (c.runOps evs).is_found = false ∧
      (c.runOps evs).cover_name = "" ∧
      (c.runOps evs).cover_data_chunks = c.cover_data_chunks := by
  induction evs with
  | nil => intro c h0 h1 h2; exact ⟨h1, h2, h0, rfl⟩
  | cons e es ih =>
    intro c h0 h1 h2
    have step : (c.step e).cover_name = "" ∧ (c.step e).is_cover = false ∧
        (c.step e).is_found = false ∧ (c.step e).cover_data_chunks = c.cover_data_chunks := by
      cases e with
      | openE t a =>
        have hf := CoverHandler.open_tag_fields c t a
        exact ⟨hf.1.trans h0, (hf.2.2.2 h0).trans h1, hf.2.1.trans h2, hf.2.2.1⟩
      | closeE t =>
        have hf := CoverHandler.close_tag_fields c t
        simp only [CoverHandler.step]
        refine ⟨hf.2.2.1.trans h0, hf.2.1, ?_, hf.2.2.2⟩
        rw [hf.1, h1, h2]
        rfl
      | dataE d =>
        have hf := CoverHandler.add_data_fields c d
        exact ⟨hf.2.2.1.trans h0, hf.1.trans h1, hf.2.1.trans h2, hf.2.2.2 h1⟩
    have trail := ih (c.step e) step.1 step.2.1 step.2.2.1
    exact ⟨trail.1, trail.2.1, trail.2.2.1, trail.2.2.2.trans step.2.2.2⟩

theorem CoverHandler.runOps_sticky (evs : List CoverEvent) :
    ∀ c : CoverHandler, c.is_found = true → (c.runOps evs).is_found = true := by
  induction evs with
  | nil => intro c h; exact h
  | cons e es ih =>
    intro c h
    apply ih
    cases e with
    | openE t a => exact (CoverHandler.open_tag_fields c t a).2.1.trans h
    | closeE t =>
      simp only [CoverHandler.step]
      rw [(CoverHandler.close_tag_fields c t).1, h]
      rfl
    | dataE d => exact (CoverHandler.add_data_fields c d).2.1.trans h

/-! ## Claims C1 and C2: `TagHandler` value and attribute collection -/

/-- Claim C1: text is accumulated exactly while the cursor indexes the last
path segment — the first chunk starts a fresh buffer, later chunks are
appended losslessly, chunks delivered at other depths are ignored — and when
the element at the end of the path closes while accumulation is in progress,
exactly one string (the whitespace-trimmed concatenation of the chunks) is
appended at the end of `values` and accumulation ends; `set_value` never
appends to `values`, and nothing is flushed when no accumulation is in
progress. -/
theorem C1_value_collection (h : TagHandler) (d t : String) :
    (h.current_index + 1 = h.path_size → h.processing_value = false →
      h.set_value d = { h with current_value := d, processing_value := true }) ∧
    (h.current_index + 1 = h.path_size → h.processing_value = true →
      h.set_value d = { h with current_value := h.current_value ++ d }) ∧
    (h.current_index + 1 ≠ h.path_size → h.set_value d = h) ∧
    ((h.set_value d).values = h.values) ∧
    (h.processing_value = true → h.current_index + 1 = h.path_size →
      0 < h.path_size → h.tags.get? h.current_index.toNat = some t →
      h.close_tag t = { h with
        current_index := h.current_index - 1
        values := h.values ++ [pyStripWs h.current_value]
        processing_value := false
        current_value := "" }) ∧
    (h.processing_value = false → (h.close_tag t).values = h.values) := by
  refine ⟨?_, ?_, ?_, ?_, ?_, ?_⟩
  · intro h1 h2
    simp [TagHandler.set_value, h1, h2]
  · intro h1 h2
    simp [TagHandler.set_value, h1, h2]
  · intro h1
    simp [TagHandler.set_value, h1]
  · simp only [TagHandler.set_value]
    split
    · split <;> rfl
    · rfl
  · intro h1 h2 h3 h4
    have hge : h.current_index ≥ 0 := by omega
    simp [TagHandler.close_tag, h1, h4, hge]
    intro hcontra
    exact absurd (by simpa using h4) hcontra
  · intro h1
    simp only [TagHandler.close_tag, h1]
    split <;> simp

/-- Witness for C1: a handler inside its one-segment path, with a pending
value `" a"`, flushes the trimmed value `"a"` on the matching close. -/
theorem C1_value_collection_witness :
    TagHandler.close_tag
        { TagHandler.init ["x"] with
            current_index := 0, processing_value := true, current_value := " a" } "x" =
      { TagHandler.init ["x"] with
          current_index := -1, values := ["a"], processing_value := false,
          current_value := "" } := by
  have h := C1_value_collection
    { TagHandler.init ["x"] with
        current_index := 0, processing_value := true, current_value := " a" } " a" "x"
  exact (h.2.2.2.2.1 (by decide) (by decide) (by decide) (by decide)).trans (by decide)

/-- Claim C2 (amended): `open_tag` advances the cursor exactly when the next
unconsumed path segment equals the tag; it returns `matched = true` and
records the attributes (appending to the history) exactly when, after that
conditional advance, the cursor indexes the last path segment — which also
happens for opens that did not advance the cursor while the matcher is
already fully matched, so the history may gain more than one mapping per full
traversal.  An open never changes any other state. -/
theorem C2_attribute_recording (h : TagHandler) (t : String) (a : AttrMap) :
    ((h.open_tag t a).1.current_index =
      (if h.current_index + 1 < h.path_size ∧
          h.tags.get? (h.current_index + 1).toNat = some t
        then h.current_index + 1 else h.current_index)) ∧
    ((h.open_tag t a).2 = true ↔ (h.open_tag t a).1.current_index + 1 = h.path_size) ∧
    ((h.open_tag t a).2 = true →
      (h.open_tag t a).1.attributes_list = h.attributes_list ++ [a] ∧
      (h.open_tag t a).1.current_attributes = a) ∧
    ((h.open_tag t a).2 = false →
      (h.open_tag t a).1 = { h with current_index := (h.open_tag t a).1.current_index }) ∧
    ((h.open_tag t a).1.values = h.values) ∧
    ((h.open_tag t a).1.processing_value = h.processing_value) ∧
    ((h.open_tag t a).1.current_value = h.current_value) := by
  simp only [TagHandler.open_tag]
  split
  · next hadv =>
    split
    · next hmatch => simp_all
    · next hmatch => simp_all
  · next hadv =>
    split
    · next hmatch => simp_all
    · next hmatch => simp_all

/-- Counterexample for C2 as stated: with path `["a"]`, opening `"a"` fully
matches; the following open of an unrelated `"b"` does not advance the cursor,
yet still returns `matched = true` and appends a second attribute mapping to
the history — the claim's "records nothing" and "exactly one mapping per full
traversal" fail. -/
theorem C2_counterexample :
    (((TagHandler.init ["a"]).open_tag "a" [("x", "1")]).1.open_tag "b" [("y", "2")]).1.current_index
        = ((TagHandler.init ["a"]).open_tag "a" [("x", "1")]).1.current_index ∧
    (((TagHandler.init ["a"]).open_tag "a" [("x", "1")]).1.open_tag "b" [("y", "2")]).2 = true ∧
    (((TagHandler.init ["a"]).open_tag "a" [("x", "1")]).1.open_tag "b" [("y", "2")]).1.attributes_list
        = [[("x", "1")], [("y", "2")]] := by
  decide

/-- Witness for C2: at the freshly initialised one-segment matcher, opening
the path tag reports a match and records the attribute mapping. -/
theorem C2_attribute_recording_witness :
    ((TagHandler.init ["a"]).open_tag "a" [("k", "v")]).2 = true ∧
    ((TagHandler.init ["a"]).open_tag "a" [("k", "v")]).1.attributes_list = [[("k", "v")]] := by
  have h := C2_attribute_recording (TagHandler.init ["a"]) "a" [("k", "v")]
  have hm : ((TagHandler.init ["a"]).open_tag "a" [("k", "v")]).2 = true :=
    h.2.1.mpr (by decide)
  exact ⟨hm, ((h.2.2.1 hm).1).trans (by decide)⟩

/-! ## Helper lemmas: `TagHandler` and parser-stage field preservation -/

theorem TagHandler.open_tag_values (h : TagHandler) (t : String) (a : AttrMap) :
    ((h.open_tag t a).1).values = h.values := by
  simp only [TagHandler.open_tag]
  repeat' split
  all_goals rfl

theorem TagHandler.set_value_values (h : TagHandler) (d : String) :
    (h.set_value d).values = h.values := by
  simp only [TagHandler.set_value]
  repeat' split
  all_goals rfl

theorem FB2Parser.openHandlersStage_author_first (p : FB2Parser) (ln : String)
    (na : AttrMap) :
    (p.openHandlersStage ln na).author_first = (p.author_first.open_tag ln na).1 := by
  simp only [FB2Parser.openHandlersStage]
  repeat' split
  all_goals rfl

theorem FB2Parser.openHandlersStage_author_last (p : FB2Parser) (ln : String)
    (na : AttrMap) :
    (p.openHandlersStage ln na).author_last = (p.author_last.open_tag ln na).1 := by
  simp only [FB2Parser.openHandlersStage]
  repeat' split
  all_goals rfl

theorem FB2Parser.start_author_values (p : FB2Parser) (n : String) (a : AttrMap) :
    (p.start n a).author_first.values = p.author_first.values ∧
    (p.start n a).author_last.values = p.author_last.values := by
  simp only [FB2Parser.start]
  repeat' split
  all_goals
    simp [FB2Parser.openHandlersStage_author_first, FB2Parser.openHandlersStage_author_last,
      TagHandler.open_tag_values]

theorem FB2Parser.data_author_values (p : FB2Parser) (d : String) :
    (p.data d).author_first.values = p.author_first.values ∧
    (p.data d).author_last.values = p.author_last.values := by
  simp only [FB2Parser.data]
  repeat' split
  all_goals simp [TagHandler.set_value_values]

theorem FB2Parser.closeHandlersStage_author (p : FB2Parser) (ln : String) :
    (p.closeHandlersStage ln).author_first = p.author_first.close_tag ln ∧
    (p.closeHandlersStage ln).author_last = p.author_last.close_tag ln := by
  simp only [FB2Parser.closeHandlersStage]
  repeat' split
  all_goals exact ⟨rfl, rfl⟩

theorem FB2Parser.coverCloseStage_ok (p : FB2Parser) (ln : String) (q : FB2Parser)
    (h : p.coverCloseStage ln = .ok q) :
    q = { p with cover_image := q.cover_image } := by
  simp only [FB2Parser.coverCloseStage] at h
  split at h
  · split at h
    · exact absurd h (by simp)
    · cases h
      rfl
  · cases h
    rfl

theorem FB2Parser.stopStage_ok_author (p : FB2Parser) (ln : String) (q : FB2Parser)
    (h : p.stopStage ln = .ok q) (hna : ln ≠ AUTHOR_TAG) :
    q.author_first = p.author_first ∧ q.author_last = p.author_last := by
  simp only [FB2Parser.stopStage, if_neg hna] at h
  split at h
  · split at h
    · exact absurd h (by simp)
    · cases h
      exact ⟨rfl, rfl⟩
  · cases h
    exact ⟨rfl, rfl⟩

theorem FB2Parser.endTag_ok_author (p : FB2Parser) (n : String) (q : FB2Parser)
    (hok : p.endTag n = .ok q) (hna : normalize_tag_name n ≠ AUTHOR_TAG) :
    q.author_first =
      (if p.processing_description
        then p.author_first.close_tag (normalize_tag_name n) else p.author_first) ∧
    q.author_last =
      (if p.processing_description
        then p.author_last.close_tag (normalize_tag_name n) else p.author_last) := by
  simp only [FB2Parser.endTag] at hok
  set ln := normalize_tag_name n with hln
  set p1 := if ln = BODY_TAG then { p with in_body := false } else p with hp1
  set p2 := if p1.processing_description then p1.closeHandlersStage ln else p1 with hp2
  have hp1fields : p1.author_first = p.author_first ∧ p1.author_last = p.author_last ∧
      p1.processing_description = p.processing_description := by
    rw [hp1]
    split <;> exact ⟨rfl, rfl, rfl⟩
  have hp2fields : p2.author_first =
      (if p.processing_description then p.author_first.close_tag ln else p.author_first) ∧
      p2.author_last =
      (if p.processing_description then p.author_last.close_tag ln else p.author_last) := by
    rw [hp2, hp1fields.2.2]
    split
    · exact ⟨((FB2Parser.closeHandlersStage_author p1 ln).1).trans (by rw [hp1fields.1]),
        ((FB2Parser.closeHandlersStage_author p1 ln).2).trans (by rw [hp1fields.2.1])⟩
    · exact ⟨hp1fields.1, hp1fields.2.1⟩
  cases hcov : p2.coverCloseStage ln with
  | error e =>
    rw [hcov] at hok
    exact absurd hok (by simp)
  | ok r =>
    rw [hcov] at hok
    simp only [] at hok
    have hr := FB2Parser.coverCloseStage_ok p2 ln r hcov
    have hs := FB2Parser.stopStage_ok_author r ln q hok hna
    constructor
    · rw [hs.1, hr]
      exact hp2fields.1
    · rw [hs.2, hr]
      exact hp2fields.2

/-! ## Claim C3: author pairing -/

/-- Claim C3 (amended): at each author end-tag the engine appends exactly one
blank placeholder (`" "`) to the strictly shorter of the two author value
lists and changes nothing else about them; the two lists have equal length
after the reconciliation exactly when their lengths differed by at most one
at that moment (which holds whenever each author element contributes at most
one value per list, but not for, e.g., an author element with two family-name
children); and the reconciliation happens only when an author element closes —
start-tag and character-data events never change the value lists, and
non-author end-tags change them only through the ordinary close-tag flush. -/
theorem C3_author_pairing (p : FB2Parser) (name d : String) (a : AttrMap) :
    (p.reconcileAuthors.author_first.values =
      (if p.author_last.values.length > p.author_first.values.length
        then p.author_first.values ++ [" "] else p.author_first.values)) ∧
    (p.reconcileAuthors.author_last.values =
      (if p.author_last.values.length < p.author_first.values.length
        then p.author_last.values ++ [" "] else p.author_last.values)) ∧
    ((p.reconcileAuthors.author_first.values.length =
        p.reconcileAuthors.author_last.values.length) ↔
      ((p.author_first.values.length : Int) - p.author_last.values.length ≤ 1 ∧
        (p.author_last.values.length : Int) - p.author_first.values.length ≤ 1)) ∧
    ((p.start name a).author_first.values = p.author_first.values ∧
      (p.start name a).author_last.values = p.author_last.values) ∧
    ((p.data d).author_first.values = p.author_first.values ∧
      (p.data d).author_last.values = p.author_last.values) ∧
    (normalize_tag_name name ≠ AUTHOR_TAG → ∀ q, p.endTag name = Except.ok q →
      q.author_first =
        (if p.processing_description
          then p.author_first.close_tag (normalize_tag_name name)
          else p.author_first) ∧
      q.author_last =
        (if p.processing_description
          then p.author_last.close_tag (normalize_tag_name name)
          else p.author_last)) := by
  refine ⟨?_, ?_, ?_, FB2Parser.start_author_values p name a,
    FB2Parser.data_author_values p d,
    fun hna q hok => FB2Parser.endTag_ok_author p name q hok hna⟩
  · simp only [FB2Parser.reconcileAuthors]
    split_ifs <;> first | rfl | omega
  · simp only [FB2Parser.reconcileAuthors]
    split_ifs <;> first | rfl | omega
  · simp only [FB2Parser.reconcileAuthors]
    split_ifs <;> simp <;> omega

/-- Counterexample for C3 as stated: in a document whose single author element
contains two `last-name` children and no `first-name`, the family-name list
has two entries but the given-name list only gains one blank placeholder, so
the two lists do not have equal length immediately after the author end-tag
is processed. -/
theorem C3_counterexample :
    (FB2Parser.parse (FB2Parser.init false)
        [Event.startE "description" [], Event.startE "title-info" [],
          Event.startE "author" [], Event.startE "last-name" [], Event.dataE "A",
          Event.endE "last-name", Event.startE "last-name" [], Event.dataE "B",
          Event.endE "last-name", Event.endE "author"]).author_last.values = ["A", "B"] ∧
    (FB2Parser.parse (FB2Parser.init false)
        [Event.startE "description" [], Event.startE "title-info" [],
          Event.startE "author" [], Event.startE "last-name" [], Event.dataE "A",
          Event.endE "last-name", Event.startE "last-name" [], Event.dataE "B",
          Event.endE "last-name", Event.endE "author"]).author_first.values = [" "] := by
  decide

/-- Witness for C3: a parser state with one family name and no given name
gains exactly one blank in the given-name list, and a `genre` end-tag on the
fresh parser leaves the author handlers untouched. -/
theorem C3_author_pairing_witness :
    ({ FB2Parser.init false with
        author_last := { TagHandler.init ["description", "title-info", "author", "last-name"] with
          values := ["Lee"] } } : FB2Parser).reconcileAuthors.author_first.values = [" "] ∧
    ((FB2Parser.init false).endTag "genre" = Except.ok (FB2Parser.init false) →
      (FB2Parser.init false).author_first =
        (if (FB2Parser.init false).processing_description
          then (FB2Parser.init false).author_first.close_tag (normalize_tag_name "genre")
          else (FB2Parser.init false).author_first)) := by
  constructor
  · have h := C3_author_pairing
      { FB2Parser.init false with
          author_last := { TagHandler.init ["description", "title-info", "author", "last-name"] with
            values := ["Lee"] } } "genre" "d" []
    exact h.1.trans (by decide)
  · intro hok
    have h := C3_author_pairing (FB2Parser.init false) "genre" "d" []
    exact (h.2.2.2.2.2 (by decide) (FB2Parser.init false) hok).1

/-! ## Claims C6 and C7: cover target and sticky found flag -/

/-- Claim C6 (amended): `set_cover_name` stores the reference stripped of all
leading and trailing `#` characters and lower-cased exactly when the
reference is present, non-empty and starts with `#`; for an absent, empty, or
non-fragment (no leading `#`) reference it stores the empty identifier.  While
the stored identifier is empty, the matcher never reports a cover match: over
any sequence of open/close/data calls the inside flag and the sticky found
flag stay false and no data chunk is ever accumulated. -/
theorem C6_cover_target (c : CoverHandler) (r : String) (evs : List CoverEvent) :
    ((c.set_cover_name (some r)).cover_name =
      (if pyStartsWith r "#" then pyLower (pyStripChars ['#'] r) else "")) ∧
    ((c.set_cover_name none).cover_name = "") ∧
    (c.cover_name = "" → c.is_cover = false → c.is_found = false →
      (c.runOps evs).is_cover = false ∧ (c.runOps evs).is_found = false ∧
      (c.runOps evs).cover_data_chunks = c.cover_data_chunks) := by
  refine ⟨?_, rfl, fun h0 h1 h2 => ?_⟩
  · by_cases hs : pyStartsWith r "#" = true
    · have hr : r ≠ "" := by
        intro he
        rw [he] at hs
        simp [pyStartsWith, List.isPrefixOf] at hs
      simp [CoverHandler.set_cover_name, hs, hr]
    · simp only [CoverHandler.set_cover_name]
      rw [if_neg (fun hand => hs hand.2), if_neg (by simpa using hs)]
  · have h := CoverHandler.runOps_inactive evs c h0 h1 h2
    exact ⟨h.1, h.2.1, h.2.2.2⟩

/-- Counterexample for C6 as stated: the non-empty reference `"cover1"` (no
leading `#`) is stored as the empty identifier — not as `"cover1"` — so cover
detection is disabled for a non-empty reference; and for `"#c#"` the trailing
fragment marker is stripped as well, not only the leading one. -/
theorem C6_counterexample :
    ((CoverHandler.init ["binary"]).set_cover_name (some "cover1")).cover_name = "" ∧
    pyLower "cover1" = "cover1" ∧ ("cover1" : String) ≠ "" ∧
    ((CoverHandler.init ["binary"]).set_cover_name (some "#c#")).cover_name = "c" ∧
    pyLower "c#" = "c#" ∧ ("c" : String) ≠ "c#" := by
  decide

/-- Witness for C6: a `#`-reference is stored stripped and lower-cased, and
with an empty identifier an open of a `binary` element with an `id` attribute
sets no flag. -/
theorem C6_cover_target_witness :
    ((CoverHandler.init ["binary"]).set_cover_name (some "#Cover1")).cover_name = "cover1" ∧
    (((CoverHandler.init ["binary"]).runOps
        [CoverEvent.openE "binary" [("id", "x")], CoverEvent.closeE "binary"]).is_found
      = false) := by
  have h := C6_cover_target (CoverHandler.init ["binary"]) "#Cover1"
    [CoverEvent.openE "binary" [("id", "x")], CoverEvent.closeE "binary"]
  exact ⟨h.1.trans (by decide), (h.2.2 rfl rfl rfl).2.1⟩

/-- Claim C7: within a single parse (no reset), once the cover handler's
sticky found flag is true it stays true across any further sequence of
`open_tag`, `close_tag` and `add_data` calls; `close_tag` makes the flag true
exactly when the handler is inside a cover element at the time of the call
(`found' = found OR inside`), and it always clears the inside flag. -/
theorem C7_sticky_found (c : CoverHandler) (evs : List CoverEvent) (t : String) :
    (c.is_found = true → (c.runOps evs).is_found = true) ∧
    ((c.close_tag t).is_found = (c.is_found || c.is_cover)) ∧
    ((c.close_tag t).is_cover = false) :=
  ⟨CoverHandler.runOps_sticky evs c, (CoverHandler.close_tag_fields c t).1,
    (CoverHandler.close_tag_fields c t).2.1⟩

/-- Witness for C7: a handler with the found flag set keeps it through a
close and a data call. -/
theorem C7_sticky_found_witness :
    (({ CoverHandler.init ["binary"] with is_found := true } : CoverHandler).runOps
      [CoverEvent.closeE "binary", CoverEvent.dataE "zz"]).is_found = true :=
  (C7_sticky_found { CoverHandler.init ["binary"] with is_found := true }
    [CoverEvent.closeE "binary", CoverEvent.dataE "zz"] "binary").1 rfl

/-! ## Claim C8: series extraction -/

/-- Claim C8: the facade's series info is built from the attributes of the
first matched `sequence` element; it is present exactly when that element
carries a non-empty `name` attribute (the stored name is trimmed of the
cosmetic symbol set); the numeric index read from the stored `number` value
(per its consumer, `int(index_str) if index_str.isdigit() else 0`) is zero
whenever the `number` attribute is missing, empty, or non-numeric; and an
absent `name` attribute yields no series even when a `number` was present. -/
theorem C8_series_info (attr : AttrMap) (rest : List AttrMap) :
    ((detect_series_info (attr :: rest)).isSome = true ↔
      (∃ n, AttrMap.get attr "name" = some n ∧ n ≠ "")) ∧
    (AttrMap.get attr "name" = none → detect_series_info (attr :: rest) = none) ∧
    (∀ n, AttrMap.get attr "name" = some n → n ≠ "" →
      detect_series_info (attr :: rest) =
        some (pyStripChars strip_symbols n,
          pyStripChars strip_symbols (AttrMap.getD attr "number" "0"))) ∧
    (AttrMap.get attr "number" = none →
      series_numeric_index (detect_series_info (attr :: rest)) = 0) ∧
    (AttrMap.get attr "number" = some "" →
      series_numeric_index (detect_series_info (attr :: rest)) = 0) ∧
    (∀ v, AttrMap.get attr "number" = some v →
      pyIsDigit (pyStripChars strip_symbols v) = false →
      series_numeric_index (detect_series_info (attr :: rest)) = 0) := by
  refine ⟨?_, ?_, ?_, ?_, ?_, ?_⟩
  · cases hn : AttrMap.get attr "name" with
    | none => simp [detect_series_info, hn]
    | some n =>
      by_cases hne : n = ""
      · subst hne
        simp [detect_series_info, hn]
      · simp [detect_series_info, hn, hne]
  · intro hn
    simp [detect_series_info, hn]
  · intro n hn hne
    simp [detect_series_info, hn, hne]
  · intro hnum
    have hd : AttrMap.getD attr "number" "0" = "0" := by simp [AttrMap.getD, hnum]
    cases hn : AttrMap.get attr "name" with
    | none => simp [detect_series_info, hn, series_numeric_index]
    | some n =>
      by_cases hne : n = ""
      · subst hne
        simp [detect_series_info, hn, series_numeric_index]
      · simp only [detect_series_info, hn, hne, ne_eq, not_false_iff, if_true, hd,
          series_numeric_index]
        decide
  · intro hnum
    have hd : AttrMap.getD attr "number" "0" = "" := by simp [AttrMap.getD, hnum]
    cases hn : AttrMap.get attr "name" with
    | none => simp [detect_series_info, hn, series_numeric_index]
    | some n =>
      by_cases hne : n = ""
      · subst hne
        simp [detect_series_info, hn, series_numeric_index]
      · simp only [detect_series_info, hn, hne, ne_eq, not_false_iff, if_true, hd,
          series_numeric_index]
        decide
  · intro v hnum hdig
    have hd : AttrMap.getD attr "number" "0" = v := by simp [AttrMap.getD, hnum]
    cases hn : AttrMap.get attr "name" with
    | none => simp [detect_series_info, hn, series_numeric_index]
    | some n =>
      by_cases hne : n = ""
      · subst hne
        simp [detect_series_info, hn, series_numeric_index]
      · simp [detect_series_info, hn, hne, hd, series_numeric_index, hdig]

/-- Witness for C8: a series element with name `"X"` and non-numeric number
`"years"` yields a present series whose numeric index is zero. -/
theorem C8_series_info_witness :
    detect_series_info [[("name", "X"), ("number", "years")]] =
      some (pyStripChars strip_symbols "X",
        pyStripChars strip_symbols (AttrMap.getD [("name", "X"), ("number", "years")] "number" "0")) ∧
    series_numeric_index (detect_series_info [[("name", "X"), ("number", "years")]]) = 0 := by
  have h := C8_series_info [("name", "X"), ("number", "years")] []
  exact ⟨h.2.2.1 "X" (by decide) (by decide), h.2.2.2.2.2 "years" (by decide) (by decide)⟩

/-! ## Claim C9: tag-name normalization -/

theorem contains_iff_mem {c : Char} {l : List Char} : l.contains c = true ↔ c ∈ l := by
  simp [List.contains, List.elem_iff]

theorem splitOnChar_ne_nil (c : Char) (l : List Char) : splitOnChar c l ≠ [] := by
  induction l with
  | nil => simp [splitOnChar]
  | cons x xs ih =>
    simp only [splitOnChar]
    split
    · simp
    · split
      · simp
      · simp

theorem splitOnChar_of_not_mem (c : Char) (l : List Char) (h : c ∉ l) :
    splitOnChar c l = [l] := by
  induction l with
  | nil => rfl
  | cons x xs ih =>
    have hx : ¬ x = c := fun he => h (he ▸ List.mem_cons_self x xs)
    have hxs : c ∉ xs := fun hm => h (List.mem_cons_of_mem x hm)
    simp only [splitOnChar, if_neg hx, ih hxs]

theorem splitOnChar_length_two (c : Char) (l : List Char) (h : c ∈ l) :
    2 ≤ (splitOnChar c l).length := by
  induction l with
  | nil => simp at h
  | cons x xs ih =>
    simp only [splitOnChar]
    split
    · have hne := splitOnChar_ne_nil c xs
      have hpos : 0 < (splitOnChar c xs).length := List.length_pos.mpr hne
      simp only [List.length_cons]
      omega
    · next hx =>
      have hxs : c ∈ xs := by
        cases List.mem_cons.mp h with
        | inl h' => exact absurd h'.symm hx
        | inr h' => exact h'
      cases hm : splitOnChar c xs with
      | nil => exact absurd hm (splitOnChar_ne_nil c xs)
      | cons y ys =>
        have h2 := ih hxs
        rw [hm] at h2
        simpa using h2

theorem splitOnChar_getLast? (c : Char) (l₁ l₂ : List Char) (h : c ∉ l₂) :
    (splitOnChar c (l₁ ++ c :: l₂)).getLast? = some l₂ := by
  induction l₁ with
  | nil =>
    rw [List.nil_append]
    have hsp : splitOnChar c (c :: l₂) = [[], l₂] := by
      simp [splitOnChar, splitOnChar_of_not_mem c l₂ h]
    rw [hsp]
    rfl
  | cons x xs ih =>
    simp only [List.cons_append, splitOnChar]
    split
    · cases hr : splitOnChar c (xs ++ c :: l₂) with
      | nil => exact absurd hr (splitOnChar_ne_nil c _)
      | cons y ys =>
        rw [hr] at ih
        rw [List.getLast?_cons_cons]
        exact ih
    · cases hr : splitOnChar c (xs ++ c :: l₂) with
      | nil => exact absurd hr (splitOnChar_ne_nil c _)
      | cons y ys =>
        rw [hr] at ih
        cases ys with
        | nil =>
          have h2 := splitOnChar_length_two c (xs ++ c :: l₂) (by simp)
          rw [hr] at h2
          simp at h2
        | cons z zs =>
          rw [List.getLast?_cons_cons]
          rwa [List.getLast?_cons_cons] at ih

/-- Claim C9 (amended): `normalize_tag_name` strips a Clark-notation namespace:
for a name of the form `\x7buri\x7dlocal` it returns the local part with
leading colons removed and lower-cased; but a name with no closing brace —
including the `prefix:local` form — is returned lower-cased unchanged, with
the prefix segment NOT removed.  The function is a total Lean function, hence
pure and never failing, on every input string. -/
theorem C9_normalize (uri loc s : String)
    (h1 : '\x7d' ∉ uri.data) (h2 : '\x7d' ∉ loc.data) (h3 : '\x7d' ∉ s.data) :
    normalize_tag_name ("\x7b" ++ uri ++ "\x7d" ++ loc) =
      pyLower (String.mk (lstripColons loc.data)) ∧
    (loc.data.head? ≠ some ':' →
      normalize_tag_name ("\x7b" ++ uri ++ "\x7d" ++ loc) = pyLower loc) ∧
    normalize_tag_name s = pyLower s := by
  have hdata : ("\x7b" ++ uri ++ "\x7d" ++ loc).data =
      ('\x7b' :: uri.data) ++ '\x7d' :: loc.data := by
    simp [String.data_append]
  have hmain : normalize_tag_name ("\x7b" ++ uri ++ "\x7d" ++ loc) =
      pyLower (String.mk (lstripColons loc.data)) := by
    unfold normalize_tag_name
    rw [if_pos (contains_iff_mem.mpr (by rw [hdata]; simp))]
    rw [hdata, List.getLastD_eq_getLast?,
      splitOnChar_getLast? '\x7d' ('\x7b' :: uri.data) loc.data h2]
    rfl
  refine ⟨hmain, fun hh => ?_, ?_⟩
  · rw [hmain]
    have hls : lstripColons loc.data = loc.data := by
      cases hl : loc.data with
      | nil => rfl
      | cons a as =>
        have ha : ¬ (a == ':') = true := by
          intro hb
          apply hh
          rw [hl, show a = ':' from by simpa using hb]
          rfl
        simp [lstripColons, List.dropWhile, ha]
    rw [hls]
  · unfold normalize_tag_name
    rw [if_neg (fun hc => h3 (contains_iff_mem.mp hc))]

/-- Counterexample for C9 as stated: for the `prefix:local` form
`"xlink:href"` the claim demands the local name `"href"`, but the function
returns the name unchanged — the prefix segment is not removed. -/
theorem C9_counterexample :
    normalize_tag_name "xlink:href" = "xlink:href" ∧
    normalize_tag_name "xlink:href" ≠ "href" := by
  decide

/-- Witness for C9: the Clark-notation name is stripped to the lower-cased
local part, and a brace-free name is only lower-cased. -/
theorem C9_normalize_witness :
    normalize_tag_name ("\x7b" ++ "URI" ++ "\x7d" ++ "Body") = pyLower "Body" ∧
    normalize_tag_name "GENRE" = pyLower "GENRE" := by
  have h := C9_normalize "URI" "Body" "GENRE" (by decide) (by decide) (by decide)
  exact ⟨h.2.1 (by decide), h.2.2⟩

/-! ## Helper lemmas: every event step is erased by `reset` -/

theorem TagHandler.reset_open_tag (h : TagHandler) (t : String) (a : AttrMap) :
    ((h.open_tag t a).1).reset = h.reset := by
  simp only [TagHandler.open_tag]
  repeat' split
  all_goals rfl

theorem TagHandler.reset_close_tag (h : TagHandler) (t : String) :
    (h.close_tag t).reset = h.reset := by
  simp only [TagHandler.close_tag]
  repeat' split
  all_goals rfl

theorem TagHandler.reset_set_value (h : TagHandler) (d : String) :
    (h.set_value d).reset = h.reset := by
  simp only [TagHandler.set_value]
  repeat' split
  all_goals rfl

theorem CoverHandler.reset_open_tag_cover (c : CoverHandler) (t : String) (a : AttrMap) :
    ((c.open_tag t a).1).reset = c.reset := by
  simp only [CoverHandler.open_tag, CoverHandler.reset]
  repeat' split
  all_goals simp [TagHandler.reset_open_tag]

theorem CoverHandler.reset_close_tag_cover (c : CoverHandler) (t : String) :
    (c.close_tag t).reset = c.reset := by
  simp only [CoverHandler.close_tag, CoverHandler.reset]
  repeat' split
  all_goals simp [TagHandler.reset_close_tag]

theorem CoverHandler.reset_add_data (c : CoverHandler) (d : String) :
    (c.add_data d).reset = c.reset := by
  simp only [CoverHandler.add_data, CoverHandler.reset]
  repeat' split
  all_goals rfl

theorem CoverHandler.reset_set_cover_name (c : CoverHandler) (x : Option String) :
    (c.set_cover_name x).reset = c.reset := by
  simp only [CoverHandler.set_cover_name, CoverHandler.reset]

theorem FB2Parser.reset_openHandlersStage (p : FB2Parser) (ln : String) (na : AttrMap) :
    (p.openHandlersStage ln na).reset = p.reset := by
  simp only [FB2Parser.openHandlersStage, FB2Parser.reset]
  repeat' split
  all_goals
    simp [TagHandler.reset_open_tag, CoverHandler.reset_set_cover_name]

theorem FB2Parser.reset_with_cover_image (p : FB2Parser) (c : CoverHandler)
    (hrc : p.read_cover = true) (hc : c.reset = p.cover_image.reset) :
    ({ p with cover_image := c } : FB2Parser).reset = p.reset := by
  simp [FB2Parser.reset, hrc, hc]

theorem FB2Parser.reset_start (p : FB2Parser) (n : String) (a : AttrMap) :
    (p.start n a).reset = p.reset := by
  simp only [FB2Parser.start]
  set p1 := if normalize_tag_name n = BODY_TAG then { p with in_body := true } else p with hp1
  have hq1 : p1.reset = p.reset := by
    rw [hp1]
    split <;> rfl
  set p2 := if p1.processing_description = true
    then p1.openHandlersStage (normalize_tag_name n) (normalize_attrs a) else p1 with hp2
  have hq2 : p2.reset = p.reset := by
    rw [hp2]
    split
    · rw [FB2Parser.reset_openHandlersStage]
      exact hq1
    · exact hq1
  split
  · next hrc =>
    rw [FB2Parser.reset_with_cover_image p2 _ hrc (CoverHandler.reset_open_tag_cover _ _ _)]
    exact hq2
  · exact hq2

theorem FB2Parser.reset_data (p : FB2Parser) (d : String) :
    (p.data d).reset = p.reset := by
  simp only [FB2Parser.data, FB2Parser.reset]
  repeat' split
  all_goals simp [TagHandler.reset_set_value, CoverHandler.reset_add_data]

theorem FB2Parser.reset_closeHandlersStage (p : FB2Parser) (ln : String) :
    (p.closeHandlersStage ln).reset = p.reset := by
  simp only [FB2Parser.closeHandlersStage, FB2Parser.reset]
  repeat' split
  all_goals simp [TagHandler.reset_close_tag]

theorem FB2Parser.reset_reconcileAuthors (p : FB2Parser) :
    p.reconcileAuthors.reset = p.reset := by
  simp only [FB2Parser.reconcileAuthors, FB2Parser.reset]
  repeat' split
  all_goals simp [TagHandler.reset]

theorem FB2Parser.reset_coverCloseStage (p : FB2Parser) (ln : String) :
    (∀ q, p.coverCloseStage ln = .ok q → q.reset = p.reset) ∧
    (∀ m q, p.coverCloseStage ln = .error (m, q) → q.reset = p.reset) := by
  constructor
  · intro q h
    simp only [FB2Parser.coverCloseStage] at h
    split at h
    · next hrc =>
      split at h
      · exact absurd h (by simp)
      · cases h
        exact FB2Parser.reset_with_cover_image p _ hrc (CoverHandler.reset_close_tag_cover _ _)
    · cases h
      rfl
  · intro m q h
    simp only [FB2Parser.coverCloseStage] at h
    split at h
    · next hrc =>
      split at h
      · cases h
        exact FB2Parser.reset_with_cover_image p _ hrc (CoverHandler.reset_close_tag_cover _ _)
      · exact absurd h (by simp)
    · exact absurd h (by simp)

theorem FB2Parser.reset_stopStage (p : FB2Parser) (ln : String) :
    (∀ q, p.stopStage ln = .ok q → q.reset = p.reset) ∧
    (∀ m q, p.stopStage ln = .error (m, q) → q.reset = p.reset) := by
  simp only [FB2Parser.stopStage]
  generalize hpx : (if ln = AUTHOR_TAG then p.reconcileAuthors else p) = px
  have hr : px.reset = p.reset := by
    rw [← hpx]
    split
    · exact FB2Parser.reset_reconcileAuthors p
    · rfl
  constructor
  · intro q h
    split at h
    · split at h
      · exact absurd h (by simp)
      · cases h
        exact hr
    · cases h
      exact hr
  · intro m q h
    split at h
    · split at h
      · cases h
        exact hr
      · exact absurd h (by simp)
    · exact absurd h (by simp)

theorem FB2Parser.reset_endTag (p : FB2Parser) (n : String) :
    (∀ q, p.endTag n = .ok q → q.reset = p.reset) ∧
    (∀ m q, p.endTag n = .error (m, q) → q.reset = p.reset) := by
  simp only [FB2Parser.endTag]
  set ln := normalize_tag_name n with hln
  set p1 := if ln = BODY_TAG then { p with in_body := false } else p with hp1
  have hq1 : p1.reset = p.reset := by
    rw [hp1]
    split <;> rfl
  set p2 := if p1.processing_description = true then p1.closeHandlersStage ln else p1 with hp2
  have hq2 : p2.reset = p.reset := by
    rw [hp2]
    split
    · rw [FB2Parser.reset_closeHandlersStage]
      exact hq1
    · exact hq1
  constructor
  · intro q h
    cases hcov : p2.coverCloseStage ln with
    | error e =>
      rw [hcov] at h
      exact absurd h (by simp)
    | ok r =>
      rw [hcov] at h
      simp only [] at h
      have hrr : r.reset = p2.reset := (FB2Parser.reset_coverCloseStage p2 ln).1 r hcov
      have hs : q.reset = r.reset := (FB2Parser.reset_stopStage r ln).1 q h
      rw [hs, hrr, hq2]
  · intro m q h
    cases hcov : p2.coverCloseStage ln with
    | error e =>
      obtain ⟨em, er⟩ := e
      rw [hcov] at h
      simp only [Except.error.injEq, Prod.mk.injEq] at h
      obtain ⟨hm2, hqq⟩ := h
      rw [← hqq, (FB2Parser.reset_coverCloseStage p2 ln).2 em er hcov, hq2]
    | ok r =>
      rw [hcov] at h
      simp only [] at h
      have hrr : r.reset = p2.reset := (FB2Parser.reset_coverCloseStage p2 ln).1 r hcov
      have hs : q.reset = r.reset := (FB2Parser.reset_stopStage r ln).2 m q h
      rw [hs, hrr, hq2]

theorem runEvents_reset (evs : List Event) :
    ∀ p : FB2Parser,
      (∀ q, runEvents p evs = .ok q → q.reset = p.reset) ∧
      (∀ m q, runEvents p evs = .error (m, q) → q.reset = p.reset) := by
  induction evs with
  | nil =>
    intro p
    constructor
    · intro q h
      cases h
      rfl
    · intro m q h
      exact absurd h (by simp [runEvents])
  | cons e es ih =>
    intro p
    have hstep : ∀ r : FB2Parser, processEvent p e = .ok r → r.reset = p.reset := by
      intro r h
      cases e with
      | startE n a =>
        cases h
        exact FB2Parser.reset_start p n a
      | endE n => exact (FB2Parser.reset_endTag p n).1 r h
      | dataE d =>
        cases h
        exact FB2Parser.reset_data p d
    have hstepErr : ∀ m r, processEvent p e = .error (m, r) → r.reset = p.reset := by
      intro m r h
      cases e with
      | startE n a => exact absurd h (by simp [processEvent])
      | endE n => exact (FB2Parser.reset_endTag p n).2 m r h
      | dataE d => exact absurd h (by simp [processEvent])
    constructor
    · intro q h
      rw [show runEvents p (e :: es) =
          (match processEvent p e with
            | .ok q => runEvents q es
            | .error x => .error x) from rfl] at h
      cases hpe : processEvent p e with
      | ok r =>
        rw [hpe] at h
        simp only [] at h
        rw [(ih r).1 q h, hstep r hpe]
      | error x =>
        rw [hpe] at h
        simp at h
    · intro m q h
      rw [show runEvents p (e :: es) =
          (match processEvent p e with
            | .ok q => runEvents q es
            | .error x => .error x) from rfl] at h
      cases hpe : processEvent p e with
      | ok r =>
        rw [hpe] at h
        simp only [] at h
        rw [(ih r).2 m q h, hstep r hpe]
      | error x =>
        obtain ⟨xm, xq⟩ := x
        rw [hpe] at h
        simp only [Except.error.injEq, Prod.mk.injEq] at h
        obtain ⟨hm2, hqq⟩ := h
        rw [← hqq]
        exact hstepErr xm xq hpe

theorem FB2Parser.reset_reset (p : FB2Parser) : p.reset.reset = p.reset := by
  simp only [FB2Parser.reset]
  repeat' split
  all_goals simp_all [TagHandler.reset, CoverHandler.reset]

theorem FB2Parser.reset_parse (p : FB2Parser) (evs : List Event) :
    (FB2Parser.parse p evs).reset = p.reset := by
  unfold FB2Parser.parse
  cases hr : runEvents p.reset evs with
  | ok q =>
    simp only []
    rw [(runEvents_reset evs p.reset).1 q hr, FB2Parser.reset_reset]
  | error x =>
    simp only []
    obtain ⟨m, q⟩ := x
    rw [(runEvents_reset evs p.reset).2 m q hr, FB2Parser.reset_reset]

/-! ## Claim C5: determinism of `parse` -/

/-- Claim C5: `parse` starts by resetting all mutable state, so its result
depends only on the event stream (the pure image of the input bytes under the
tokenizer) and the construction-time configuration — not on any state left by
earlier parses.  In particular, running `parse` a second time on the same
events returns exactly the same state (values, attribute histories, body
text, error flag) as the first run. -/
theorem C5_parse_deterministic (p : FB2Parser) (evs : List Event) :
    FB2Parser.parse (FB2Parser.parse p evs) evs = FB2Parser.parse p evs := by
  have key : ∀ q : FB2Parser, q.reset = p.reset →
      FB2Parser.parse q evs = FB2Parser.parse p evs := by
    intro q hq
    unfold FB2Parser.parse
    rw [hq]
  exact key (FB2Parser.parse p evs) (FB2Parser.reset_parse p evs)

/-! ## Helper lemmas: no event step touches the error fields -/

theorem FB2Parser.openHandlersStage_err (p : FB2Parser) (ln : String) (na : AttrMap) :
    (p.openHandlersStage ln na).parse_error = p.parse_error ∧
    (p.openHandlersStage ln na).parse_error_msg = p.parse_error_msg := by
  simp only [FB2Parser.openHandlersStage]
  repeat' split
  all_goals exact ⟨rfl, rfl⟩

theorem FB2Parser.start_err (p : FB2Parser) (n : String) (a : AttrMap) :
    (p.start n a).parse_error = p.parse_error ∧
    (p.start n a).parse_error_msg = p.parse_error_msg := by
  simp only [FB2Parser.start]
  repeat' split
  all_goals simp [FB2Parser.openHandlersStage_err]

theorem FB2Parser.data_err (p : FB2Parser) (d : String) :
    (p.data d).parse_error = p.parse_error ∧
    (p.data d).parse_error_msg = p.parse_error_msg := by
  simp only [FB2Parser.data]
  repeat' split
  all_goals exact ⟨rfl, rfl⟩

theorem FB2Parser.closeHandlersStage_err (p : FB2Parser) (ln : String) :
    (p.closeHandlersStage ln).parse_error = p.parse_error ∧
    (p.closeHandlersStage ln).parse_error_msg = p.parse_error_msg := by
  simp only [FB2Parser.closeHandlersStage]
  repeat' split
  all_goals exact ⟨rfl, rfl⟩

theorem FB2Parser.reconcileAuthors_err (p : FB2Parser) :
    p.reconcileAuthors.parse_error = p.parse_error ∧
    p.reconcileAuthors.parse_error_msg = p.parse_error_msg := by
  simp only [FB2Parser.reconcileAuthors]
  repeat' split
  all_goals exact ⟨rfl, rfl⟩

theorem FB2Parser.coverCloseStage_err (p : FB2Parser) (ln : String) :
    (∀ q, p.coverCloseStage ln = .ok q →
      q.parse_error = p.parse_error ∧ q.parse_error_msg = p.parse_error_msg) ∧
    (∀ m q, p.coverCloseStage ln = .error (m, q) →
      q.parse_error = p.parse_error ∧ q.parse_error_msg = p.parse_error_msg) := by
  constructor
  · intro q h
    simp only [FB2Parser.coverCloseStage] at h
    split at h
    · split at h
      · exact absurd h (by simp)
      · cases h
        exact ⟨rfl, rfl⟩
    · cases h
      exact ⟨rfl, rfl⟩
  · intro m q h
    simp only [FB2Parser.coverCloseStage] at h
    split at h
    · split at h
      · cases h
        exact ⟨rfl, rfl⟩
      · exact absurd h (by simp)
    · exact absurd h (by simp)

theorem FB2Parser.stopStage_err (p : FB2Parser) (ln : String) :
    (∀ q, p.stopStage ln = .ok q →
      q.parse_error = p.parse_error ∧ q.parse_error_msg = p.parse_error_msg) ∧
    (∀ m q, p.stopStage ln = .error (m, q) →
      q.parse_error = p.parse_error ∧ q.parse_error_msg = p.parse_error_msg) := by
  simp only [FB2Parser.stopStage]
  generalize hpx : (if ln = AUTHOR_TAG then p.reconcileAuthors else p) = px
  have hr : px.parse_error = p.parse_error ∧ px.parse_error_msg = p.parse_error_msg := by
    rw [← hpx]
    split
    · exact FB2Parser.reconcileAuthors_err p
    · exact ⟨rfl, rfl⟩
  constructor
  · intro q h
    split at h
    · split at h
      · exact absurd h (by simp)
      · cases h
        exact hr
    · cases h
      exact hr
  · intro m q h
    split at h
    · split at h
      · cases h
        exact hr
      · exact absurd h (by simp)
    · exact absurd h (by simp)

theorem FB2Parser.endTag_err (p : FB2Parser) (n : String) :
    (∀ q, p.endTag n = .ok q →
      q.parse_error = p.parse_error ∧ q.parse_error_msg = p.parse_error_msg) ∧
    (∀ m q, p.endTag n = .error (m, q) →
      q.parse_error = p.parse_error ∧ q.parse_error_msg = p.parse_error_msg) := by
  simp only [FB2Parser.endTag]
  set ln := normalize_tag_name n with hln
  set p1 := if ln = BODY_TAG then { p with in_body := false } else p with hp1
  have hq1 : p1.parse_error = p.parse_error ∧ p1.parse_error_msg = p.parse_error_msg := by
    rw [hp1]
    split <;> exact ⟨rfl, rfl⟩
  set p2 := if p1.processing_description = true then p1.closeHandlersStage ln else p1 with hp2
  have hq2 : p2.parse_error = p.parse_error ∧ p2.parse_error_msg = p.parse_error_msg := by
    rw [hp2]
    split
    · exact ⟨((FB2Parser.closeHandlersStage_err p1 ln).1).trans hq1.1,
        ((FB2Parser.closeHandlersStage_err p1 ln).2).trans hq1.2⟩
    · exact hq1
  constructor
  · intro q h
    cases hcov : p2.coverCloseStage ln with
    | error e =>
      rw [hcov] at h
      exact absurd h (by simp)
    | ok r =>
      rw [hcov] at h
      simp only [] at h
      have hrr := (FB2Parser.coverCloseStage_err p2 ln).1 r hcov
      have hs := (FB2Parser.stopStage_err r ln).1 q h
      exact ⟨(hs.1.trans hrr.1).trans hq2.1, (hs.2.trans hrr.2).trans hq2.2⟩
  · intro m q h
    cases hcov : p2.coverCloseStage ln with
    | error e =>
      obtain ⟨em, er⟩ := e
      rw [hcov] at h
      simp only [Except.error.injEq, Prod.mk.injEq] at h
      obtain ⟨hm2, hqq⟩ := h
      have hrr := (FB2Parser.coverCloseStage_err p2 ln).2 em er hcov
      rw [← hqq]
      exact ⟨hrr.1.trans hq2.1, hrr.2.trans hq2.2⟩
    | ok r =>
      rw [hcov] at h
      simp only [] at h
      have hrr := (FB2Parser.coverCloseStage_err p2 ln).1 r hcov
      have hs := (FB2Parser.stopStage_err r ln).2 m q h
      exact ⟨(hs.1.trans hrr.1).trans hq2.1, (hs.2.trans hrr.2).trans hq2.2⟩

theorem runEvents_err (evs : List Event) :
    ∀ p : FB2Parser,
      (∀ q, runEvents p evs = .ok q →
        q.parse_error = p.parse_error ∧ q.parse_error_msg = p.parse_error_msg) ∧
      (∀ m q, runEvents p evs = .error (m, q) →
        q.parse_error = p.parse_error ∧ q.parse_error_msg = p.parse_error_msg) := by
  induction evs with
  | nil =>
    intro p
    constructor
    · intro q h
      cases h
      exact ⟨rfl, rfl⟩
    · intro m q h
      exact absurd h (by simp [runEvents])
  | cons e es ih =>
    intro p
    have hstep : ∀ r : FB2Parser, processEvent p e = .ok r →
        r.parse_error = p.parse_error ∧ r.parse_error_msg = p.parse_error_msg := by
      intro r h
      cases e with
      | startE n a =>
        cases h
        exact FB2Parser.start_err p n a
      | endE n => exact (FB2Parser.endTag_err p n).1 r h
      | dataE d =>
        cases h
        exact FB2Parser.data_err p d
    have hstepErr : ∀ m r, processEvent p e = .error (m, r) →
        r.parse_error = p.parse_error ∧ r.parse_error_msg = p.parse_error_msg := by
      intro m r h
      cases e with
      | startE n a => exact absurd h (by simp [processEvent])
      | endE n => exact (FB2Parser.endTag_err p n).2 m r h
      | dataE d => exact absurd h (by simp [processEvent])
    constructor
    · intro q h
      rw [show runEvents p (e :: es) =
          (match processEvent p e with
            | .ok q => runEvents q es
            | .error x => .error x) from rfl] at h
      cases hpe : processEvent p e with
      | ok r =>
        rw [hpe] at h
        simp only [] at h
        have hq := (ih r).1 q h
        have hr := hstep r hpe
        exact ⟨hq.1.trans hr.1, hq.2.trans hr.2⟩
      | error x =>
        rw [hpe] at h
        simp at h
    · intro m q h
      rw [show runEvents p (e :: es) =
          (match processEvent p e with
            | .ok q => runEvents q es
            | .error x => .error x) from rfl] at h
      cases hpe : processEvent p e with
      | ok r =>
        rw [hpe] at h
        simp only [] at h
        have hq := (ih r).2 m q h
        have hr := hstep r hpe
        exact ⟨hq.1.trans hr.1, hq.2.trans hr.2⟩
      | error x =>
        obtain ⟨xm, xq⟩ := x
        rw [hpe] at h
        simp only [Except.error.injEq, Prod.mk.injEq] at h
        obtain ⟨hm2, hqq⟩ := h
        rw [← hqq]
        exact hstepErr xm xq hpe

/-! ## Claim C10: `parse` never propagates an exception -/

/-- Claim C10: the feed loop's outcome is always caught by `parse`.  A raised
`StopIteration` (early-stop signal) is swallowed as success: the caller gets
the state at the stop with the error flag still 0.  A normal completion also
leaves the flag 0.  Any other exception raised after the delivered events (the
`except Exception` branch, modelled by `parseRaising`) sets `parse_error` to 1
and `parse_error_msg` to the exception message while changing nothing else —
every matcher value, attribute and body chunk collected before the failure
point is preserved; and when a `StopIteration` fired first, the late exception
never happens and the result is the ordinary successful one. -/
theorem C10_parse_error_handling (p q : FB2Parser) (evs : List Event)
    (msg emsg : String) :
    (runEvents p.reset evs = .error (msg, q) →
      FB2Parser.parse p evs = q ∧ q.parse_error = 0 ∧
      FB2Parser.parseRaising p evs emsg = q) ∧
    (runEvents p.reset evs = .ok q →
      FB2Parser.parse p evs = q ∧ q.parse_error = 0 ∧
      FB2Parser.parseRaising p evs emsg =
        { q with parse_error := 1, parse_error_msg := emsg }) := by
  constructor
  · intro h
    refine ⟨?_, ?_, ?_⟩
    · unfold FB2Parser.parse
      rw [h]
    · rw [((runEvents_err evs p.reset).2 msg q h).1]
      rfl
    · unfold FB2Parser.parseRaising
      rw [h]
  · intro h
    refine ⟨?_, ?_, ?_⟩
    · unfold FB2Parser.parse
      rw [h]
    · rw [((runEvents_err evs p.reset).1 q h).1]
      rfl
    · unfold FB2Parser.parseRaising
      rw [h]

/-- Witness for C10: one data event completes normally with the flag 0, and a
late exception sets only the error fields. -/
theorem C10_parse_error_handling_witness :
    FB2Parser.parse (FB2Parser.init false) [Event.dataE "x"] =
      ((FB2Parser.init false).reset).data "x" ∧
    (((FB2Parser.init false).reset).data "x").parse_error = 0 ∧
    FB2Parser.parseRaising (FB2Parser.init false) [Event.dataE "x"] "boom" =
      { ((FB2Parser.init false).reset).data "x" with
          parse_error := 1, parse_error_msg := "boom" } :=
  (C10_parse_error_handling (FB2Parser.init false) (((FB2Parser.init false).reset).data "x")
    [Event.dataE "x"] "" "boom").2 rfl

/-! ## Helper lemmas: how each event step touches the cover handler -/

theorem FB2Parser.openHandlersStage_cover (p : FB2Parser) (ln : String) (na : AttrMap) :
    (p.openHandlersStage ln na).cover_image = p.cover_image ∨
    ∃ x, (p.openHandlersStage ln na).cover_image = p.cover_image.set_cover_name x := by
  simp only [FB2Parser.openHandlersStage]
  repeat' split
  all_goals first | exact Or.inl rfl | exact Or.inr ⟨_, rfl⟩

theorem FB2Parser.start_cover (p : FB2Parser) (n : String) (a : AttrMap) :
    ∃ c : CoverHandler,
      (c.is_cover = p.cover_image.is_cover ∧ c.is_found = p.cover_image.is_found ∧
        c.cover_data_chunks = p.cover_image.cover_data_chunks) ∧
      ((p.start n a).cover_image = c ∨
        (p.start n a).cover_image = (c.open_tag (normalize_tag_name n) (normalize_attrs a)).1) := by
  simp only [FB2Parser.start]
  set p1 := if normalize_tag_name n = BODY_TAG then { p with in_body := true } else p with hp1
  have h1 : p1.cover_image = p.cover_image := by
    rw [hp1]
    split <;> rfl
  set p2 := if p1.processing_description = true
    then p1.openHandlersStage (normalize_tag_name n) (normalize_attrs a) else p1 with hp2
  have h2 : p2.cover_image = p1.cover_image ∨
      ∃ x, p2.cover_image = p1.cover_image.set_cover_name x := by
    rw [hp2]
    split
    · exact FB2Parser.openHandlersStage_cover p1 _ _
    · exact Or.inl rfl
  have hflags : p2.cover_image.is_cover = p.cover_image.is_cover ∧
      p2.cover_image.is_found = p.cover_image.is_found ∧
      p2.cover_image.cover_data_chunks = p.cover_image.cover_data_chunks := by
    cases h2 with
    | inl hh =>
      rw [hh, h1]
      exact ⟨rfl, rfl, rfl⟩
    | inr hh =>
      obtain ⟨x, hx⟩ := hh
      rw [hx, h1]
      exact CoverHandler.set_cover_name_fields p.cover_image x
  refine ⟨p2.cover_image, hflags, ?_⟩
  split
  · exact Or.inr rfl
  · exact Or.inl rfl

theorem FB2Parser.data_cover (p : FB2Parser) (d : String) :
    (p.data d).cover_image = p.cover_image ∨
    (p.data d).cover_image = p.cover_image.add_data d := by
  simp only [FB2Parser.data]
  repeat' split
  all_goals first | exact Or.inl rfl | exact Or.inr rfl

theorem FB2Parser.reconcileAuthors_cover (p : FB2Parser) :
    p.reconcileAuthors.cover_image = p.cover_image := by
  simp only [FB2Parser.reconcileAuthors]
  repeat' split
  all_goals rfl

theorem FB2Parser.closeHandlersStage_misc (p : FB2Parser) (ln : String) :
    (p.closeHandlersStage ln).read_cover = p.read_cover ∧
    (p.closeHandlersStage ln).stop_tag = p.stop_tag ∧
    (p.closeHandlersStage ln).cover_image = p.cover_image := by
  simp only [FB2Parser.closeHandlersStage]
  repeat' split
  all_goals exact ⟨rfl, rfl, rfl⟩

theorem FB2Parser.coverCloseStage_ok_cover (p : FB2Parser) (ln : String) (q : FB2Parser)
    (h : p.coverCloseStage ln = .ok q) :
    q.cover_image = p.cover_image ∨ q.cover_image = p.cover_image.close_tag ln := by
  simp only [FB2Parser.coverCloseStage] at h
  split at h
  · split at h
    · exact absurd h (by simp)
    · cases h
      exact Or.inr rfl
  · cases h
    exact Or.inl rfl

theorem FB2Parser.stopStage_cover (p : FB2Parser) (ln : String) :
    (∀ q, p.stopStage ln = .ok q → q.cover_image = p.cover_image) ∧
    (∀ m q, p.stopStage ln = .error (m, q) → q.cover_image = p.cover_image) := by
  simp only [FB2Parser.stopStage]
  generalize hpx : (if ln = AUTHOR_TAG then p.reconcileAuthors else p) = px
  have hr : px.cover_image = p.cover_image := by
    rw [← hpx]
    split
    · exact FB2Parser.reconcileAuthors_cover p
    · rfl
  constructor
  · intro q h
    split at h
    · split at h
      · exact absurd h (by simp)
      · cases h
        exact hr
    · cases h
      exact hr
  · intro m q h
    split at h
    · split at h
      · cases h
        exact hr
      · exact absurd h (by simp)
    · exact absurd h (by simp)

theorem FB2Parser.endTag_ok_cover (p : FB2Parser) (n : String) (q : FB2Parser)
    (h : p.endTag n = .ok q) :
    q.cover_image = p.cover_image ∨
    q.cover_image = p.cover_image.close_tag (normalize_tag_name n) := by
  simp only [FB2Parser.endTag] at h
  set ln := normalize_tag_name n with hln
  set p1 := if ln = BODY_TAG then { p with in_body := false } else p with hp1
  have h1 : p1.cover_image = p.cover_image := by
    rw [hp1]
    split <;> rfl
  set p2 := if p1.processing_description = true then p1.closeHandlersStage ln else p1 with hp2
  have h2 : p2.cover_image = p.cover_image := by
    rw [hp2]
    split
    · exact ((FB2Parser.closeHandlersStage_misc p1 ln).2.2).trans h1
    · exact h1
  cases hcov : p2.coverCloseStage ln with
  | error e =>
    rw [hcov] at h
    exact absurd h (by simp)
  | ok r =>
    rw [hcov] at h
    simp only [] at h
    have hs : q.cover_image = r.cover_image := (FB2Parser.stopStage_cover r ln).1 q h
    cases FB2Parser.coverCloseStage_ok_cover p2 ln r hcov with
    | inl hh => exact Or.inl ((hs.trans hh).trans h2)
    | inr hh =>
      refine Or.inr ?_
      rw [hs, hh, h2]

theorem runEvents_append (l₁ l₂ : List Event) : ∀ p,
    runEvents p (l₁ ++ l₂) =
      (match runEvents p l₁ with
        | .ok q => runEvents q l₂
        | .error x => .error x) := by
  induction l₁ with
  | nil => intro p; rfl
  | cons e es ih =>
    intro p
    rw [List.cons_append]
    rw [show runEvents p (e :: (es ++ l₂)) =
      (match processEvent p e with
        | .ok q => runEvents q (es ++ l₂)
        | .error x => .error x) from rfl]
    rw [show runEvents p (e :: es) =
      (match processEvent p e with
        | .ok q => runEvents q es
        | .error x => .error x) from rfl]
    cases hpe : processEvent p e with
    | ok q =>
      simp only []
      exact ih q
    | error x => simp only []

theorem run_no_target (evs : List Event) :
    ∀ p : FB2Parser,
      p.cover_image.is_cover = false → p.cover_image.is_found = false →
      p.cover_image.cover_data_chunks = [] →
      (∀ i, i ≤ evs.length → ∃ q, runEvents p (evs.take i) = .ok q ∧
        q.cover_image.cover_name = "") →
      ∃ q, runEvents p evs = .ok q ∧ q.cover_image.cover_name = "" ∧
        q.cover_image.is_cover = false ∧ q.cover_image.is_found = false ∧
        q.cover_image.cover_data_chunks = [] := by
  induction evs with
  | nil =>
    intro p h1 h2 h3 H
    obtain ⟨q, hq, hn⟩ := H 0 (Nat.le_refl 0)
    cases hq
    exact ⟨p, rfl, hn, h1, h2, h3⟩
  | cons e es ih =>
    intro p h1 h2 h3 H
    obtain ⟨q1, hq1, hn1⟩ := H 1 (by simp)
    have hpe : processEvent p e = .ok q1 := by
      have hone : runEvents p [e] = .ok q1 := by simpa using hq1
      rw [show runEvents p [e] =
        (match processEvent p e with
          | .ok r => runEvents r []
          | .error x => .error x) from rfl] at hone
      cases hc : processEvent p e with
      | ok r =>
        rw [hc] at hone
        simp only [runEvents] at hone
        cases hone
        rfl
      | error x =>
        rw [hc] at hone
        simp at hone
    have hflags : q1.cover_image.is_cover = false ∧ q1.cover_image.is_found = false ∧
        q1.cover_image.cover_data_chunks = [] := by
      cases e with
      | startE n a =>
        cases hpe
        obtain ⟨c, ⟨hc1, hc2, hc3⟩, hcase⟩ := FB2Parser.start_cover p n a
        cases hcase with
        | inl hh =>
          rw [hh]
          exact ⟨hc1.trans h1, hc2.trans h2, hc3.trans h3⟩
        | inr hh =>
          rw [hh]
          have hfields := CoverHandler.open_tag_fields c (normalize_tag_name n) (normalize_attrs a)
          have hcn : c.cover_name = "" := by
            rw [hh, hfields.1] at hn1
            exact hn1
          exact ⟨(hfields.2.2.2 hcn).trans (hc1.trans h1), hfields.2.1.trans (hc2.trans h2),
            hfields.2.2.1.trans (hc3.trans h3)⟩
      | dataE d =>
        cases hpe
        cases FB2Parser.data_cover p d with
        | inl hh =>
          rw [hh]
          exact ⟨h1, h2, h3⟩
        | inr hh =>
          rw [hh]
          have hf := CoverHandler.add_data_fields p.cover_image d
          exact ⟨hf.1.trans h1, hf.2.1.trans h2, (hf.2.2.2 h1).trans h3⟩
      | endE n =>
        cases FB2Parser.endTag_ok_cover p n q1 hpe with
        | inl hh =>
          rw [hh]
          exact ⟨h1, h2, h3⟩
        | inr hh =>
          rw [hh]
          have hf := CoverHandler.close_tag_fields p.cover_image (normalize_tag_name n)
          refine ⟨hf.2.1, ?_, hf.2.2.2.trans h3⟩
          rw [hf.1, h1, h2]
          rfl
    have H' : ∀ i, i ≤ es.length → ∃ q, runEvents q1 (es.take i) = .ok q ∧
        q.cover_image.cover_name = "" := by
      intro i hi
      obtain ⟨q, hq, hn⟩ := H (i + 1) (by simpa using Nat.succ_le_succ hi)
      refine ⟨q, ?_, hn⟩
      rw [show (e :: es).take (i + 1) = e :: es.take i from rfl] at hq
      rw [show runEvents p (e :: es.take i) =
        (match processEvent p e with
          | .ok r => runEvents r (es.take i)
          | .error x => .error x) from rfl, hpe] at hq
      simpa using hq
    obtain ⟨q, hq, hna, ha, hb, hc⟩ := ih q1 hflags.1 hflags.2.1 hflags.2.2 H'
    refine ⟨q, ?_, hna, ha, hb, hc⟩
    rw [show runEvents p (e :: es) =
      (match processEvent p e with
        | .ok r => runEvents r es
        | .error x => .error x) from rfl, hpe]
    simpa using hq

theorem FB2Parser.endTag_no_cover (p : FB2Parser)
    (hrc : p.read_cover = true) (hst : p.stop_tag = DESCRIPTION_TAG)
    (hic : p.cover_image.is_cover = false) (hif : p.cover_image.is_found = false)
    (hcn : p.cover_image.cover_name = "") :
    ∃ r, p.endTag "description" = .error ("No cover, stopping parse", r) ∧
      r.cover_image.cover_data_chunks = p.cover_image.cover_data_chunks ∧
      r.cover_image.is_found = false := by
  have hln : normalize_tag_name "description" = DESCRIPTION_TAG := by decide
  simp only [FB2Parser.endTag, hln]
  rw [if_neg (by decide : ¬ (DESCRIPTION_TAG = BODY_TAG))]
  set p2 := if p.processing_description = true
    then p.closeHandlersStage DESCRIPTION_TAG else p with hp2
  have hmisc : p2.read_cover = true ∧ p2.stop_tag = DESCRIPTION_TAG ∧
      p2.cover_image = p.cover_image := by
    rw [hp2]
    split
    · have hm := FB2Parser.closeHandlersStage_misc p DESCRIPTION_TAG
      exact ⟨hm.1.trans hrc, hm.2.1.trans hst, hm.2.2⟩
    · exact ⟨hrc, hst, rfl⟩
  have hci_found : (p2.cover_image.close_tag DESCRIPTION_TAG).is_found = false := by
    rw [hmisc.2.2, (CoverHandler.close_tag_fields p.cover_image DESCRIPTION_TAG).1, hif, hic]
    rfl
  have hcov : p2.coverCloseStage DESCRIPTION_TAG =
      .ok { p2 with cover_image := p2.cover_image.close_tag DESCRIPTION_TAG } := by
    simp only [FB2Parser.coverCloseStage]
    rw [if_pos hmisc.1, if_neg (by simp [hci_found])]
  rw [hcov]
  simp only []
  refine ⟨{ p2 with cover_image := p2.cover_image.close_tag DESCRIPTION_TAG }, ?_, ?_, hci_found⟩
  · simp only [FB2Parser.stopStage]
    rw [if_neg (by decide : ¬ (DESCRIPTION_TAG = AUTHOR_TAG))]
    have hname : ({ p2 with cover_image := p2.cover_image.close_tag DESCRIPTION_TAG } :
        FB2Parser).cover_image.cover_name = "" := by
      show (p2.cover_image.close_tag DESCRIPTION_TAG).cover_name = ""
      rw [(CoverHandler.close_tag_fields p2.cover_image DESCRIPTION_TAG).2.2.1, hmisc.2.2]
      exact hcn
    rw [if_pos (show DESCRIPTION_TAG =
        ({ p2 with cover_image := p2.cover_image.close_tag DESCRIPTION_TAG } :
          FB2Parser).stop_tag from hmisc.2.1.symm)]
    rw [if_pos ⟨show ({ p2 with cover_image := p2.cover_image.close_tag DESCRIPTION_TAG } :
        FB2Parser).read_cover = true from hmisc.1, hname⟩]
  · exact (CoverHandler.close_tag_fields p2.cover_image DESCRIPTION_TAG).2.2.2.trans
      (congrArg CoverHandler.cover_data_chunks hmisc.2.2)

/-! ## Claim C4: no-cover early termination -/

/-- Claim C4: in cover-scan mode, when the `description` end-tag is processed
while the cover target identifier has stayed empty over the whole run so far
(`set_target` was never given a reference producing a non-empty identifier),
the parse stops at that event: every later event is ignored (the result
equals the parse that ends at the description close, so the body is never
scanned), the stop is a success (`parse_error` stays 0), and the cover result
is "no cover" (empty accumulated payload, found flag false). -/
theorem C4_no_cover_early_stop (pre post : List Event)
    (H : ∀ i, i ≤ pre.length →
      ∃ q, runEvents ((FB2Parser.init true).reset) (pre.take i) = .ok q ∧
        q.cover_image.cover_name = "") :
    FB2Parser.parse (FB2Parser.init true) (pre ++ Event.endE "description" :: post) =
      FB2Parser.parse (FB2Parser.init true) (pre ++ [Event.endE "description"]) ∧
    (FB2Parser.parse (FB2Parser.init true)
        (pre ++ Event.endE "description" :: post)).parse_error = 0 ∧
    (FB2Parser.parse (FB2Parser.init true)
        (pre ++ Event.endE "description" :: post)).cover_image.cover_data = "" ∧
    (FB2Parser.parse (FB2Parser.init true)
        (pre ++ Event.endE "description" :: post)).cover_image.is_found = false := by
  set p0 := (FB2Parser.init true).reset with hp0
  obtain ⟨pp, hpp, hname, hic, hif, hchunks⟩ :=
    run_no_target pre p0 rfl rfl rfl H
  have hreset : pp.reset = p0.reset := (runEvents_reset pre p0).1 pp hpp
  have hrc : pp.read_cover = true := by
    have h4 : (pp.reset).read_cover = (p0.reset).read_cover :=
      congrArg FB2Parser.read_cover hreset
    have h3 : pp.read_cover = p0.read_cover := h4
    rw [h3, hp0]
    rfl
  have hst : pp.stop_tag = DESCRIPTION_TAG := by
    have h4 : (pp.reset).stop_tag = (p0.reset).stop_tag :=
      congrArg FB2Parser.stop_tag hreset
    have h3 : pp.stop_tag = p0.stop_tag := h4
    rw [h3, hp0]
    rfl
  obtain ⟨r, herr, hrchunks, hrfound⟩ := FB2Parser.endTag_no_cover pp hrc hst hic hif hname
  have hrun : ∀ tail : List Event,
      runEvents p0 (pre ++ Event.endE "description" :: tail) =
        .error ("No cover, stopping parse", r) := by
    intro tail
    rw [runEvents_append, hpp]
    simp only []
    rw [show runEvents pp (Event.endE "description" :: tail) =
      (match processEvent pp (Event.endE "description") with
        | .ok rr => runEvents rr tail
        | .error x => .error x) from rfl]
    rw [show processEvent pp (Event.endE "description") =
      pp.endTag "description" from rfl, herr]
  have heq1 : FB2Parser.parse (FB2Parser.init true)
      (pre ++ Event.endE "description" :: post) = r := by
    unfold FB2Parser.parse
    rw [← hp0, hrun post]
  have heq2 : FB2Parser.parse (FB2Parser.init true)
      (pre ++ [Event.endE "description"]) = r := by
    unfold FB2Parser.parse
    rw [← hp0, hrun []]
  refine ⟨heq1.trans heq2.symm, ?_, ?_, ?_⟩
  · rw [heq1]
    have herr2 := (runEvents_err (pre ++ Event.endE "description" :: post) p0).2
      "No cover, stopping parse" r (hrun post)
    rw [herr2.1, hp0]
    rfl
  · rw [heq1]
    show String.join r.cover_image.cover_data_chunks = ""
    rw [hrchunks.trans hchunks]
    rfl
  · rw [heq1]
    exact hrfound

/-- Witness for C4: with an empty prefix and one body data event after the
description close, the parse stops at the description boundary with error
flag 0 and no cover. -/
theorem C4_no_cover_early_stop_witness :
    FB2Parser.parse (FB2Parser.init true) ([] ++ Event.endE "description" ::
        [Event.dataE "zz"]) =
      FB2Parser.parse (FB2Parser.init true) ([] ++ [Event.endE "description"]) ∧
    (FB2Parser.parse (FB2Parser.init true) ([] ++ Event.endE "description" ::
        [Event.dataE "zz"])).parse_error = 0 ∧
    (FB2Parser.parse (FB2Parser.init true) ([] ++ Event.endE "description" ::
        [Event.dataE "zz"])).cover_image.cover_data = "" ∧
    (FB2Parser.parse (FB2Parser.init true) ([] ++ Event.endE "description" ::
        [Event.dataE "zz"])).cover_image.is_found = false :=
  C4_no_cover_early_stop [] [Event.dataE "zz"]
    (fun i _ => ⟨(FB2Parser.init true).reset, by rw [List.take_nil]; rfl, rfl⟩)
